import Mathlib

/-!
# Verification of the Binance_Bot core

A shallow embedding, in Lean 4, of the core of the `Binance_Bot` repository:

* `src/binance_bot/common/client.py` — symbol discovery (`get_all_symbols`) and
  concurrent pagination of candle data (`get_prices_in_period`);
* `src/binance_bot/traders/trader.py` — the portfolio-holding `Trader` base class
  (`append_tick`, `_buy`, `_sell`, `estimated_price`, `estimated_balance`);
* `src/binance_bot/traders/trader_moving_average.py` — the moving-average
  crossover strategy (`make_a_decision`);
* `src/binance_bot/traders/trader_random.py` — the random baseline strategy;
* `src/binance_bot/utils.py` — the semaphore-based rate limiter (`call_limit`);
* `src/binance_bot/backtesting.py` — the legacy duplicated `Trader` kept at the
  package root (its `_sell` differs from the one in `traders/trader.py`).

Python floats are modelled as rationals (`ℚ`); `datetime` values are modelled as
integral Unix seconds (`ℤ`); fallible operations return `Except`/`Option`.
Randomness (`random.random()`) is passed in as an explicit argument, and the
asyncio scheduler's completion order is passed in as an explicit list of events,
so that properties can be quantified over every completion order.
-/

namespace BinanceBot

/-- The 11 kline columns kept by the bot, in the order of
`KlineColumns.get_keys()` (`annotations`/`config.py`). The 12th response field
is discarded by `get_keys`. -/
inductive KlineColumns where
  | KLINE_OPEN_TIME
  | OPEN_PRICE
  | HIGH_PRICE
  | LOW_PRICE
  | CLOSE_PRICE
  | VOLUME
  | KLINE_CLOSE_TIME
  | QUOTE_ASSET_VOLUME
  | NUMBER_OF_TRADES
  | TAKER_BUY_BASE_ASSET_VOLUME
  | TAKER_BUY_QUOTE_ASSET_VOLUME
deriving DecidableEq, Repr

/-- `KlineColumns.get_keys()`: the list of all columns in declaration order. -/
def KlineColumns.get_keys : List KlineColumns :=
  [.KLINE_OPEN_TIME, .OPEN_PRICE, .HIGH_PRICE, .LOW_PRICE, .CLOSE_PRICE,
   .VOLUME, .KLINE_CLOSE_TIME, .QUOTE_ASSET_VOLUME, .NUMBER_OF_TRADES,
   .TAKER_BUY_BASE_ASSET_VOLUME, .TAKER_BUY_QUOTE_ASSET_VOLUME]

/-- A columnar series: the `dict[KlineColumns, np.ndarray]` produced by the
client, one numeric sequence per column. -/
def Series : Type := KlineColumns → List ℚ

/-- The decision enum `ACTION` (`annotations`): `BUY = 1`, `DO_NOTHING = 0`,
`SELL = -1`. -/
inductive ACTION where
  | BUY
  | DO_NOTHING
  | SELL
deriving DecidableEq, Repr

/-- Errors the Python code can raise while trading: `IndexError` from
`list[-1]`/`array[-1]` on an empty buffer, and `ZeroDivisionError` from the
division by `estimated_price` in `_buy`. -/
inductive TradeError where
  | indexError
  | zeroDivisionError
deriving DecidableEq, Repr

/-- The `Trader` state (`traders/trader.py`): `balance` (quote units), `assets`
(base units) and the per-column tick buffer `klines`. -/
structure Trader where
  balance : ℚ
  assets : ℚ
  klines : KlineColumns → List ℚ

/-- `Trader.TRADING_FEE = 0.001` (`traders/trader.py`). -/
def TRADING_FEE : ℚ := 1 / 1000

/-- A fresh trader (`Trader.__init__`): `balance = 10000`, `assets = 0`, empty
buffers. -/
def Trader.init : Trader :=
  { balance := 10000, assets := 0, klines := fun _ => [] }

/-- `Trader.estimated_price`: `self.klines[KlineColumns.CLOSE_PRICE][-1]`.
`none` models the `IndexError` raised on an empty buffer. -/
def Trader.estimated_price (t : Trader) : Option ℚ :=
  (t.klines KlineColumns.CLOSE_PRICE).getLast?

/-- `Trader.estimated_balance`: `self.balance + self.assets * self.estimated_price`. -/
def Trader.estimated_balance (t : Trader) : Option ℚ :=
  t.estimated_price.map fun p => t.balance + t.assets * p

/-- `Trader._buy(ratio)` with the fee rate left as a parameter:
`money_to_spend = balance * ratio`;
`assets_to_buy = money_to_spend * (1 - fee) / estimated_price`;
then `assets += assets_to_buy; balance -= money_to_spend`.
Fails with `IndexError` on an empty buffer and with `ZeroDivisionError` when
the last close price is `0`. -/
def Trader.buyF (fee ratio : ℚ) (t : Trader) : Except TradeError Trader :=
  match t.estimated_price with
  | none => .error .indexError
  | some p =>
    if p = 0 then .error .zeroDivisionError
    else
      .ok { t with
              assets := t.assets + t.balance * ratio * (1 - fee) / p,
              balance := t.balance - t.balance * ratio }

/-- `Trader._sell(ratio)` with the fee rate left as a parameter:
`assets_to_sell = assets * ratio`;
then `assets -= assets_to_sell;
balance += estimated_price * assets_to_sell * (1 - fee)`. -/
def Trader.sellF (fee ratio : ℚ) (t : Trader) : Except TradeError Trader :=
  match t.estimated_price with
  | none => .error .indexError
  | some p =>
    .ok { t with
            assets := t.assets - t.assets * ratio,
            balance := t.balance + p * (t.assets * ratio) * (1 - fee) }

/-- `Trader._buy` exactly as in `traders/trader.py`: fee `TRADING_FEE = 0.001`. -/
def Trader.buy (ratio : ℚ) (t : Trader) : Except TradeError Trader :=
  t.buyF TRADING_FEE ratio

/-- `Trader._sell` exactly as in `traders/trader.py`: fee `TRADING_FEE = 0.001`. -/
def Trader.sell (ratio : ℚ) (t : Trader) : Except TradeError Trader :=
  t.sellF TRADING_FEE ratio

/-- One `self.klines[key].append(value)` step of `Trader.append_tick`. -/
def Trader.appendCol (t : Trader) (key : KlineColumns) (value : ℚ) : Trader :=
  { t with klines := fun k => if k = key then t.klines k ++ [value] else t.klines k }

/-- `Trader.append_tick(tick_data)`:
`for key, value in zip(self.keys, tick_data): self.klines[key].append(value)`.
`zip` truncates to the shorter of the two lists. -/
def Trader.append_tick (tick_data : List ℚ) (t : Trader) : Trader :=
  (KlineColumns.get_keys.zip tick_data).foldl
    (fun s kv => s.appendCol kv.1 kv.2) t

/-! ## Client: symbol discovery (`Client.get_all_symbols`) -/

/-- One entry of the `exchangeInfo` response's `symbols` array, restricted to
the fields the client reads. -/
structure SymbolInfo where
  symbol : String
  quoteAsset : String
  status : String
deriving DecidableEq, Repr

/-- `Client.get_all_symbols`, with the `exchangeInfo` response passed in:
the list comprehension keeps `info["symbol"]` whenever
`info["quoteAsset"] == "USDT" and info["status"] == STATUS.TRADING.value`,
and the function then returns `data[:1]`. -/
def get_all_symbols (symbols : List SymbolInfo) : List String :=
  ((symbols.filter fun info =>
      info.quoteAsset = "USDT" ∧ info.status = "TRADING").map
    (fun info => info.symbol)).take 1

/-! ## Client: pagination (`Client.get_prices_in_period`)

The `while` loop of `get_prices_in_period` creates one
`get_prices_of_(symbol, start_time, end_time)` coroutine per iteration
(arguments are bound eagerly at creation time), then advances `start_time` by
`timedelta(minutes=1000)` and stops once
`start_time >= end_time - timedelta(seconds=1)`. Times are Unix seconds. -/

/-- The sequence of `start_time` values handed to the per-sub-window fetches by
the `while True` loop of `get_prices_in_period` (a do-while: at least one fetch
is always issued). -/
def windowStarts (startTime endTime : ℤ) : List ℤ :=
  if startTime + 60000 ≥ endTime - 1 then [startTime]
  else startTime :: windowStarts (startTime + 60000) endTime
termination_by (endTime - 1 - startTime).toNat
decreasing_by omega

/-- The merge loop of `get_prices_in_period`: starting from
`value = results[0][key]`, concatenate `results[1:]` column by column. -/
def mergeSeries : List Series → Series
  | [] => fun _ => []
  | r0 :: rest => fun key => rest.foldl (fun value r => value ++ r key) (r0 key)

/-- `asyncio.gather(*tasks)` without `return_exceptions`: if any task fails,
its error is propagated and no partial result list is produced; otherwise the
task results come back in task (fan-out) order. -/
def gatherResults : List (Except ε Series) → Except ε (List Series)
  | [] => .ok []
  | r :: rest =>
    match r with
    | .error err => .error err
    | .ok v =>
      match gatherResults rest with
      | .error err => .error err
      | .ok vs => .ok (v :: vs)

/-- `Client.get_prices_in_period`, with the per-sub-window fetch
(`get_prices_of_`, which may fail with a network or parse error) passed in.
Each fetch receives its captured `start_time` together with the overall
`end_time`; `asyncio.gather` without `return_exceptions` propagates a failing
task's error and otherwise yields the results in task order
(`gatherResults`), and the gathered results are merged column by column. -/
def get_prices_in_period (fetch : ℤ → ℤ → Except ε Series)
    (startTime endTime : ℤ) : Except ε Series :=
  match gatherResults ((windowStarts startTime endTime).map fun s => fetch s endTime) with
  | .error err => .error err
  | .ok results => .ok (mergeSeries results)

/-! ### Completion-order model of `asyncio.gather`

`gather` stores each task's result in the slot of the task's position in the
fan-out; the order in which results *arrive* is an arbitrary permutation of the
task indices. `slotsAfter results order` plays the completion events of
`order` one by one, each writing its task's result into that task's own slot,
and `gatherSched` then reads the slots back in fan-out order. -/

/-- Replay completion events: event `i` writes result `i` into slot `i`. -/
def slotsAfter (results : List α) (order : List ℕ) : ℕ → Option α :=
  order.foldl (fun acc i => fun j => if j = i then results.get? i else acc j)
    (fun _ => none)

/-- The list `asyncio.gather` hands back: slot contents in fan-out order. -/
def gatherSched (results : List α) (order : List ℕ) : List (Option α) :=
  (List.range results.length).map (slotsAfter results order)

/-- Modelled from the spec: the exchange `GET /klines` boundary (§6, §4.2).
For a request with `interval="1m"`, `limit=1000` and range `[s, e]` it returns
the minute candles opening at `s + 60*k`, `k < limit = 1000`, whose open time
does not exceed `e`. (The network response itself is outside `src/`.) -/
def klinesResponse (s e : ℤ) : List ℤ :=
  ((List.range 1000).map fun k : ℕ => s + 60 * (k : ℤ)).filter fun t => t ≤ e

/-! ## Strategies -/

/-- `pandas` rolling mean at index `i` with `min_periods=1`: the mean of
`prices[max(0, i+1-w) .. i]` (natural subtraction gives the clamp at `0`). -/
def windowMean (w : ℕ) (prices : List ℚ) (i : ℕ) : ℚ :=
  let seg := (prices.take (i + 1)).drop (i + 1 - w)
  seg.sum / seg.length

/-- `self._compute_moving_average(prices, window)`:
`pd.Series(prices).rolling(window=window, min_periods=1).mean()`. -/
def compute_moving_average (prices : List ℚ) (window : ℕ) : List ℚ :=
  (List.range prices.length).map (windowMean window prices)

/-- `np.roll(a, 1)`: rotate one step to the right. -/
def rollOne : List Bool → List Bool
  | [] => []
  | x :: xs => (x :: xs).getLast (by simp) :: (x :: xs).dropLast

/-- `MovingAverageTrader.make_a_decision` (`trader_moving_average.py`):
compute the window-10 and window-50 rolling means of the close prices,
`signals = short_mavg > long_mavg`, `crossed = (signals != np.roll(signals, 1))[-1]`
(an `IndexError` on an empty buffer), then `DO_NOTHING`, or `_buy(0.5)`/`BUY`
when `signals[-1]`, or `_sell(0.2)`/`SELL`. -/
def make_a_decision_MA (t : Trader) : Except TradeError (ACTION × Trader) :=
  let prices := t.klines KlineColumns.CLOSE_PRICE
  let short_mavg := compute_moving_average prices 10
  let long_mavg := compute_moving_average prices 50
  let signals := List.zipWith (fun a b => decide (a > b)) short_mavg long_mavg
  let diffs := List.zipWith (fun a b : Bool => a != b) signals (rollOne signals)
  match diffs.getLast? with
  | none => .error .indexError
  | some crossed =>
    if ¬crossed then .ok (.DO_NOTHING, t)
    else
      match signals.getLast? with
      | none => .error .indexError
      | some sLast =>
        if sLast then
          match t.buy (1/2) with
          | .error err => .error err
          | .ok t' => .ok (.BUY, t')
        else
          match t.sell (1/5) with
          | .error err => .error err
          | .ok t' => .ok (.SELL, t')

/-- `RandomActionTrader.make_a_decision` (`trader_random.py`), with the two
`random.random()` draws (the branch draw `prob` and the ratio draw) passed in:
`prob < 1/6` buys, `1/6 <= prob < 2/6` sells, else `DO_NOTHING`. -/
def make_a_decision_random (prob ratio : ℚ) (t : Trader) :
    Except TradeError (ACTION × Trader) :=
  if prob < 1/6 then
    match t.buy ratio with
    | .error err => .error err
    | .ok t' => .ok (.BUY, t')
  else if 1/6 ≤ prob ∧ prob < 2/6 then
    match t.sell ratio with
    | .error err => .error err
    | .ok t' => .ok (.SELL, t')
  else .ok (.DO_NOTHING, t)

/-! ## Legacy `Trader` at `binance_bot/backtesting.py`

The package root keeps an older copy of the trader whose `_sell` multiplies by
`estimated_balance` instead of `estimated_price` and whose `TRADING_FEE` is
`0.1` (10%), not `0.001`. -/

/-- `TRADING_FEE = 0.1` of the legacy `backtesting.py` `Trader`. -/
def TRADING_FEE_legacy : ℚ := 1 / 10

/-- `Trader._sell(ratio)` of the legacy `backtesting.py` `Trader`:
`assets_to_sell = self.assets * ratio; self.assets -= assets_to_sell;
self.balance += self.estimated_balance * assets_to_sell * (1 - 0.1)`.
`estimated_balance` is a property, so it is evaluated *after* the assets
decrement: the credited equity is `balance + (assets - soldAssets) * price`. -/
def Trader.sell_legacy (ratio : ℚ) (t : Trader) : Except TradeError Trader :=
  match t.estimated_price with
  | none => .error .indexError
  | some p =>
    .ok { t with
            assets := t.assets - t.assets * ratio,
            balance := t.balance +
              (t.balance + (t.assets - t.assets * ratio) * p) * (t.assets * ratio)
                * (1 - TRADING_FEE_legacy) }

/-! ## Rate limiter (`utils.call_limit`)

`call_limit(max_calls)` wraps an async function so that each call runs inside
`async with asyncio.Semaphore(max_calls)`. We embed the cooperative scheduling
of `k` concurrent wrapped calls as a labelled transition system: each call is
`waiting` (suspended in `acquire`), `running` (holding a permit, i.e. between
`acquire` and the scoped release — this covers the awaited body and the
`asyncio.sleep(1)`), or `done` (permit released). `async with` releases the
permit on every exit path. The scheduler picks an arbitrary enabled event at
each step, so traces quantify over every completion order. -/

/-- The phase of one wrapped call. -/
inductive CallPhase where
  | waiting
  | running
  | done
deriving DecidableEq, Repr

/-- The joint state: free permits of the shared semaphore, plus one phase per
concurrent call. -/
structure LimiterState where
  permits : ℕ
  calls : List CallPhase
deriving DecidableEq, Repr

/-- A scheduler event: call `i` completes its `acquire`, or call `i` finishes
and releases its permit. -/
inductive LimiterEvt where
  | acquire (i : ℕ)
  | release (i : ℕ)
deriving DecidableEq, Repr

/-- The initial state of `call_limit(max_calls)` with `k` concurrent calls:
`asyncio.Semaphore(max_calls)` full, every call suspended at `acquire`. -/
def LimiterState.init (max_calls k : ℕ) : LimiterState :=
  { permits := max_calls, calls := List.replicate k .waiting }

/-- One scheduler step. `acquire i` is enabled when call `i` is waiting and a
permit is free (`asyncio.Semaphore.acquire` suspends otherwise — it never
fails); `release i` is enabled when call `i` holds a permit. -/
def limiterStep (s : LimiterState) : LimiterEvt → Option LimiterState
  | .acquire i =>
    if s.calls.get? i = some .waiting ∧ 0 < s.permits then
      some { permits := s.permits - 1, calls := s.calls.set i .running }
    else none
  | .release i =>
    if s.calls.get? i = some .running then
      some { permits := s.permits + 1, calls := s.calls.set i .done }
    else none

/-- Run a whole schedule (a list of events); `none` if some event is not
enabled when its turn comes. -/
def runLimiter (s : LimiterState) (trace : List LimiterEvt) : Option LimiterState :=
  trace.foldlM limiterStep s

/-- The number of calls in flight (holding a permit). -/
def LimiterState.inFlight (s : LimiterState) : ℕ :=
  s.calls.count .running

/-! ## Helper lemmas -/

/-- The column a tick field lands in: position of the column in
`KlineColumns.get_keys`. -/
def colIdx : KlineColumns → ℕ
  | .KLINE_OPEN_TIME => 0
  | .OPEN_PRICE => 1
  | .HIGH_PRICE => 2
  | .LOW_PRICE => 3
  | .CLOSE_PRICE => 4
  | .VOLUME => 5
  | .KLINE_CLOSE_TIME => 6
  | .QUOTE_ASSET_VOLUME => 7
  | .NUMBER_OF_TRADES => 8
  | .TAKER_BUY_BASE_ASSET_VOLUME => 9
  | .TAKER_BUY_QUOTE_ASSET_VOLUME => 10

theorem appendCol_fold_klines (pairs : List (KlineColumns × ℚ)) (t : Trader)
    (k : KlineColumns) :
    (pairs.foldl (fun s kv => s.appendCol kv.1 kv.2) t).klines k
      = t.klines k ++ (pairs.filter (fun kv => kv.1 = k)).map Prod.snd := by
  induction pairs generalizing t with
  | nil => simp
  | cons kv rest ih =>
    rw [List.foldl_cons, ih, List.filter_cons]
    by_cases h : kv.1 = k
    · simp [Trader.appendCol, h]
    · have h' : ¬(k = kv.1) := fun hk => h hk.symm
      simp [Trader.appendCol, h, h']

theorem appendCol_fold_balance (pairs : List (KlineColumns × ℚ)) (t : Trader) :
    (pairs.foldl (fun s kv => s.appendCol kv.1 kv.2) t).balance = t.balance ∧
    (pairs.foldl (fun s kv => s.appendCol kv.1 kv.2) t).assets = t.assets := by
  induction pairs generalizing t with
  | nil => exact ⟨rfl, rfl⟩
  | cons kv rest ih => exact ih _

theorem zip_keys_filter (tick : List ℚ) (h : 11 ≤ tick.length) (k : KlineColumns) :
    (KlineColumns.get_keys.zip tick).filter (fun kv => kv.1 = k)
      = [(k, tick.getD (colIdx k) 0)] := by
  rcases tick with _ | ⟨t0, _ | ⟨t1, _ | ⟨t2, _ | ⟨t3, _ | ⟨t4, _ | ⟨t5, _ | ⟨t6,
    _ | ⟨t7, _ | ⟨t8, _ | ⟨t9, _ | ⟨t10, rest⟩⟩⟩⟩⟩⟩⟩⟩⟩⟩⟩ <;>
    simp_all [KlineColumns.get_keys] <;> cases k <;> simp [colIdx]

/-- Claim C10: for every trader and every tick row of at least 11 fields,
`append_tick` appends exactly one element (the row's field at the column's
position) to each of the 11 column buffers — so equal buffer lengths are
preserved — leaves balance and assets alone, and afterwards `estimated_price`
is the close-price field (index 4) of the appended tick. -/
theorem append_tick_extends_each_column (t : Trader) (tick : List ℚ)
    (h : 11 ≤ tick.length) :
    (∀ k, (t.append_tick tick).klines k = t.klines k ++ [tick.getD (colIdx k) 0])
    ∧ (∀ k, ((t.append_tick tick).klines k).length = (t.klines k).length + 1)
    ∧ ((∀ k k', (t.klines k).length = (t.klines k').length) →
        ∀ k k', ((t.append_tick tick).klines k).length
          = ((t.append_tick tick).klines k').length)
    ∧ (t.append_tick tick).balance = t.balance
    ∧ (t.append_tick tick).assets = t.assets
    ∧ (t.append_tick tick).estimated_price = some (tick.getD 4 0) := by
  have hcol : ∀ k, (t.append_tick tick).klines k
      = t.klines k ++ [tick.getD (colIdx k) 0] := by
    intro k
    rw [Trader.append_tick, appendCol_fold_klines, zip_keys_filter tick h k]
    rfl
  refine ⟨hcol, fun k => by rw [hcol k]; simp, fun heq k k' => by
    rw [hcol k, hcol k']; simp [heq k k'], ?_, ?_, ?_⟩
  · exact (appendCol_fold_balance _ t).1
  · exact (appendCol_fold_balance _ t).2
  · have h4 : colIdx KlineColumns.CLOSE_PRICE = 4 := rfl
    rw [Trader.estimated_price, hcol KlineColumns.CLOSE_PRICE, h4,
      List.getLast?_concat]

/-- Witness for C10 at a concrete 12-field tick appended to a fresh trader. -/
theorem append_tick_extends_each_column_witness :
    (Trader.init.append_tick [1, 2, 3, 4, 5, 6, 7, 8, 9, 10, 11, 12]).estimated_price
      = some 5 :=
  (append_tick_extends_each_column Trader.init
    [1, 2, 3, 4, 5, 6, 7, 8, 9, 10, 11, 12] (by simp)).2.2.2.2.2

/-- A concrete trader holding balance 10000, 10 base units, last close 100. -/
def legacySellTrader : Trader :=
  { balance := 10000, assets := 10,
    klines := fun k => if k = KlineColumns.CLOSE_PRICE then [100] else [] }

/-- Claim C2: `_sell(ratio)` in `traders/trader.py` sells `assets*ratio` base
units, decreases `assets` by exactly that amount and increases `balance` by
exactly `soldAssets * currentClosePrice * (1 - 0.001)` — but the duplicated
legacy `Trader._sell` in `backtesting.py` does not: on balance 10000, 10
assets, close 100, ratio 1 it decrements assets to 0 and then credits
`estimatedBalance * soldAssets * 0.9 = (10000 + 0·100) · 10 · 0.9 = 90000`,
yielding balance 100000 instead of the claimed 10999. -/
theorem sell_economics_and_legacy_divergence :
    (∀ (t : Trader) (r p : ℚ), 0 ≤ r → r ≤ 1 → 0 < p →
        t.estimated_price = some p →
        t.sell r = .ok { balance := t.balance + t.assets * r * p * (1 - 1/1000),
                         assets := t.assets - t.assets * r,
                         klines := t.klines })
    ∧ Trader.sell_legacy 1 legacySellTrader
        = .ok { balance := 100000, assets := 0, klines := legacySellTrader.klines }
    ∧ (100000 : ℚ) ≠ 10000 + 10 * 1 * 100 * (1 - 1/1000) := by
  refine ⟨fun t r p _ _ hp hlast => ?_, ?_, by norm_num⟩
  · rw [Trader.sell, Trader.sellF, hlast]
    simp only [Except.ok.injEq, Trader.mk.injEq, TRADING_FEE, and_true]
    ring
  · have hlast : legacySellTrader.estimated_price = some 100 := by
      simp [legacySellTrader, Trader.estimated_price]
    rw [Trader.sell_legacy, hlast]
    simp only [Except.ok.injEq, Trader.mk.injEq, TRADING_FEE_legacy,
      legacySellTrader, and_true]
    norm_num

/-- Witness for C2's universal part: sell half the assets at close 100. -/
theorem sell_economics_witness :
    Trader.sell (1/2) legacySellTrader
      = .ok { balance := 10000 + 10 * (1/2) * 100 * (1 - 1/1000),
              assets := 10 - 10 * (1/2), klines := legacySellTrader.klines } :=
  sell_economics_and_legacy_divergence.1 legacySellTrader (1/2) 100
    (by norm_num) (by norm_num) (by norm_num)
    (by simp [legacySellTrader, Trader.estimated_price])

/-- A fresh-portfolio trader with balance `b`, no assets, and one tick whose
close price is `p` (`Trader.__init__` starts with `assets = 0`). -/
def traderWith (b p : ℚ) : Trader :=
  { balance := b, assets := 0,
    klines := fun k => if k = KlineColumns.CLOSE_PRICE then [p] else [] }

theorem traderWith_estimated_price (b p : ℚ) :
    (traderWith b p).estimated_price = some p := by
  simp [traderWith, Trader.estimated_price]

/-- Claim C3: starting from balance `b > 0` and no assets, `_buy(1.0)`
followed by `_sell(1.0)` at the same positive close price leaves balance
`b * (1 - fee)^2`: exactly `b` when the fee rate is `0`, and strictly less
than `b` when the fee rate is positive (and at most `1`). -/
theorem buy_sell_round_trip (b p f : ℚ) (hb : 0 < b) (hp : 0 < p) (hf : f ≤ 1) :
    ∃ t', (((traderWith b p).buyF f 1).bind (Trader.sellF f 1)) = .ok t'
      ∧ t'.balance = b * (1 - f) ^ 2
      ∧ (f = 0 → t'.balance = b)
      ∧ (0 < f → t'.balance < b) := by
  have hp0 : p ≠ 0 := ne_of_gt hp
  have hbuy : (traderWith b p).buyF f 1 =
      .ok { balance := b - b * 1, assets := 0 + b * 1 * (1 - f) / p,
            klines := (traderWith b p).klines } := by
    simp only [Trader.buyF, traderWith_estimated_price, if_neg hp0]
    rfl
  have hep : Trader.estimated_price
      { balance := b - b * 1, assets := 0 + b * 1 * (1 - f) / p,
        klines := (traderWith b p).klines } = some p := by
    simp [Trader.estimated_price, traderWith]
  have hrun : (((traderWith b p).buyF f 1).bind (Trader.sellF f 1))
      = .ok { balance := (b - b * 1) + p * ((0 + b * 1 * (1 - f) / p) * 1) * (1 - f),
              assets := (0 + b * 1 * (1 - f) / p) - (0 + b * 1 * (1 - f) / p) * 1,
              klines := (traderWith b p).klines } := by
    rw [hbuy]
    simp only [Except.bind, Trader.sellF, hep]
  have hbal : (b - b * 1) + p * ((0 + b * 1 * (1 - f) / p) * 1) * (1 - f)
      = b * (1 - f) ^ 2 := by
    field_simp
    ring
  refine ⟨_, hrun, hbal, fun h0 => ?_, fun hfpos => ?_⟩
  · show (b - b * 1) + p * ((0 + b * 1 * (1 - f) / p) * 1) * (1 - f) = b
    rw [hbal, h0]
    ring
  · show (b - b * 1) + p * ((0 + b * 1 * (1 - f) / p) * 1) * (1 - f) < b
    rw [hbal]
    have key : 0 < b * f * (2 - f) := mul_pos (mul_pos hb hfpos) (by linarith)
    nlinarith [key]

/-- Witness for C3 at `b = 10000`, `p = 100`, fee `0.001`: the round trip
strictly loses money. -/
theorem buy_sell_round_trip_witness :
    ∃ t', (((traderWith 10000 100).buyF (1/1000) 1).bind
        (Trader.sellF (1/1000) 1)) = .ok t'
      ∧ t'.balance = 10000 * (1 - 1/1000) ^ 2 ∧ t'.balance < 10000 := by
  obtain ⟨t', h1, h2, _, h4⟩ :=
    buy_sell_round_trip 10000 100 (1/1000) (by norm_num) (by norm_num) (by norm_num)
  exact ⟨t', h1, h2, h4 (by norm_num)⟩

/-- A concrete `exchangeInfo` symbol list with two USDT/TRADING symbols, one
non-USDT symbol and one non-TRADING symbol. -/
def exchangeInfoInput : List SymbolInfo :=
  [{ symbol := "BTCUSDT", quoteAsset := "USDT", status := "TRADING" },
   { symbol := "ETHUSDT", quoteAsset := "USDT", status := "TRADING" },
   { symbol := "LTCBTC", quoteAsset := "BTC", status := "TRADING" },
   { symbol := "XYZUSDT", quoteAsset := "USDT", status := "BREAK" }]

/-- Claim C4: `get_all_symbols` is claimed to return every symbol whose quote
asset is USDT and whose status is TRADING; the code filters exactly that way
but then returns `data[:1]`, so on an exchange list with two eligible symbols
only the first is returned and the second eligible symbol is dropped. -/
theorem get_all_symbols_truncates_to_one :
    get_all_symbols exchangeInfoInput = ["BTCUSDT"]
    ∧ ((exchangeInfoInput.filter fun info =>
          info.quoteAsset = "USDT" ∧ info.status = "TRADING").map
        (fun info => info.symbol)) = ["BTCUSDT", "ETHUSDT"]
    ∧ get_all_symbols exchangeInfoInput
        ≠ ((exchangeInfoInput.filter fun info =>
              info.quoteAsset = "USDT" ∧ info.status = "TRADING").map
            (fun info => info.symbol)) := by
  refine ⟨by decide, by decide, by decide⟩

/-! ## Characterization of the moving-average decision -/

/-- The crossover signal at index `i`: short (window 10) simple moving average
strictly above the long (window 50) one, both with `min_periods = 1`. -/
def sigB (prices : List ℚ) (i : ℕ) : Bool :=
  decide (windowMean 10 prices i > windowMean 50 prices i)

theorem signals_eq (prices : List ℚ) :
    List.zipWith (fun a b => decide (a > b))
      (compute_moving_average prices 10) (compute_moving_average prices 50)
      = (List.range prices.length).map (sigB prices) := by
  rw [compute_moving_average, compute_moving_average, List.zipWith_map,
    List.zipWith_same]
  rfl

theorem rollOne_eq (l : List Bool) (h : l ≠ []) :
    rollOne l = l.getLast h :: l.dropLast := by
  cases l with
  | nil => exact absurd rfl h
  | cons x xs => rfl

theorem map_range_getLast? (f : ℕ → Bool) (m : ℕ) :
    ((List.range (m + 1)).map f).getLast? = some (f m) := by
  simp [List.range_succ]

theorem rollOne_map_range_getLast? (f : ℕ → Bool) (n : ℕ) (hn : 0 < n) :
    (rollOne ((List.range n).map f)).getLast? = some (f (n - 2)) := by
  match n, hn with
  | 1, _ => rfl
  | (m + 2), _ =>
    have hne : ((List.range (m + 2)).map f) ≠ [] := by simp
    rw [rollOne_eq _ hne]
    have h1 : ((List.range (m + 2)).map f).dropLast = (List.range (m + 1)).map f := by
      rw [List.range_succ, List.map_append]
      exact List.dropLast_concat
    have h2 : (List.range (m + 1)).map f = (List.range m).map f ++ [f m] := by
      rw [List.range_succ, List.map_append]
      rfl
    rw [h1, h2, ← List.cons_append, List.getLast?_concat]
    simp

theorem map_range_getLast?_pos (f : ℕ → Bool) (n : ℕ) (hn : 0 < n) :
    ((List.range n).map f).getLast? = some (f (n - 1)) := by
  obtain ⟨m, rfl⟩ : ∃ m, n = m + 1 := ⟨n - 1, by omega⟩
  rw [map_range_getLast?]
  simp

theorem zipWith_getLast? {α β γ : Type} (f : α → β → γ) (l₁ : List α)
    (l₂ : List β) (hl : l₁.length = l₂.length) (h1 : l₁ ≠ []) (h2 : l₂ ≠ []) :
    (List.zipWith f l₁ l₂).getLast? = some (f (l₁.getLast h1) (l₂.getLast h2)) := by
  have e1 := List.dropLast_append_getLast h1
  have e2 := List.dropLast_append_getLast h2
  have hlen : l₁.dropLast.length = l₂.dropLast.length := by
    rw [List.length_dropLast, List.length_dropLast, hl]
  conv_lhs => rw [← e1, ← e2]
  rw [List.zipWith_append _ _ _ _ _ hlen]
  show (List.zipWith f l₁.dropLast l₂.dropLast
    ++ [f (l₁.getLast h1) (l₂.getLast h2)]).getLast? = _
  rw [List.getLast?_concat]

/-- Full characterization of `MovingAverageTrader.make_a_decision` on a
non-empty buffer with last close price `p`: it is driven by the signal at the
last index versus the signal one step earlier (`np.roll` wrap: for a single
tick the comparison is of the signal with itself). -/
theorem maDecide_spec (t : Trader) (p : ℚ)
    (hp : (t.klines KlineColumns.CLOSE_PRICE).getLast? = some p) :
    make_a_decision_MA t =
      (if (sigB (t.klines KlineColumns.CLOSE_PRICE)
            ((t.klines KlineColumns.CLOSE_PRICE).length - 1))
          != (sigB (t.klines KlineColumns.CLOSE_PRICE)
            ((t.klines KlineColumns.CLOSE_PRICE).length - 2)) then
        if sigB (t.klines KlineColumns.CLOSE_PRICE)
            ((t.klines KlineColumns.CLOSE_PRICE).length - 1) then
          if p = 0 then .error .zeroDivisionError
          else .ok (.BUY, { t with
            assets := t.assets + t.balance * (1/2) * (1 - TRADING_FEE) / p,
            balance := t.balance - t.balance * (1/2) })
        else .ok (.SELL, { t with
            assets := t.assets - t.assets * (1/5),
            balance := t.balance + p * (t.assets * (1/5)) * (1 - TRADING_FEE) })
      else .ok (.DO_NOTHING, t)) := by
  have hne : t.klines KlineColumns.CLOSE_PRICE ≠ [] := by
    intro h0
    rw [h0] at hp
    cases hp
  have hn : 0 < (t.klines KlineColumns.CLOSE_PRICE).length :=
    List.length_pos.mpr hne
  set prices := t.klines KlineColumns.CLOSE_PRICE with hprices
  have hMne : (List.range prices.length).map (sigB prices) ≠ [] := by
    simp [← List.length_pos, hn]
  have hRne : rollOne ((List.range prices.length).map (sigB prices)) ≠ [] := by
    rw [rollOne_eq _ hMne]
    simp
  have hMlen : ((List.range prices.length).map (sigB prices)).length
      = (rollOne ((List.range prices.length).map (sigB prices))).length := by
    rw [rollOne_eq _ hMne]
    simp only [List.length_cons, List.length_dropLast, List.length_map,
      List.length_range]
    omega
  have hMlast : ((List.range prices.length).map (sigB prices)).getLast hMne
      = sigB prices (prices.length - 1) :=
    Option.some.inj ((List.getLast?_eq_getLast _ hMne).symm.trans
      (map_range_getLast?_pos (sigB prices) prices.length hn))
  have hRlast : (rollOne ((List.range prices.length).map (sigB prices))).getLast hRne
      = sigB prices (prices.length - 2) :=
    Option.some.inj ((List.getLast?_eq_getLast _ hRne).symm.trans
      (rollOne_map_range_getLast? (sigB prices) prices.length hn))
  have hD : (List.zipWith (fun a b : Bool => a != b)
        ((List.range prices.length).map (sigB prices))
        (rollOne ((List.range prices.length).map (sigB prices)))).getLast?
      = some (sigB prices (prices.length - 1) != sigB prices (prices.length - 2)) := by
    rw [zipWith_getLast? _ _ _ hMlen hMne hRne, hMlast, hRlast]
  have hSlast : ((List.range prices.length).map (sigB prices)).getLast?
      = some (sigB prices (prices.length - 1)) :=
    map_range_getLast?_pos (sigB prices) prices.length hn
  have hep : t.estimated_price = some p := hp
  simp only [make_a_decision_MA, ← hprices, signals_eq prices, hD, hSlast,
    Trader.buy, Trader.sell, Trader.buyF, Trader.sellF, hep]
  by_cases hcb : (sigB prices (prices.length - 1)
      != sigB prices (prices.length - 2)) = true
  · rw [if_neg (by simp [hcb]), if_pos hcb]
    by_cases hs : sigB prices (prices.length - 1) = true
    · rw [if_pos hs, if_pos hs]
      by_cases hp0 : p = 0
      · rw [if_pos hp0, if_pos hp0]
      · rw [if_neg hp0, if_neg hp0]
    · rw [if_neg hs, if_neg hs]
  · rw [if_pos hcb, if_neg hcb]

/-- Claim C7 (amended): on a non-empty buffer with nonzero last close price,
`make_a_decision_MA` compares the window-10 and window-50 SMAs (min-periods 1),
declares a crossover exactly when the `short > long` boolean at the last tick
differs from the one at the preceding tick (for a single tick `np.roll` wraps
the comparison onto the tick itself, so no crossover), and on upward crossover
buys 50% of balance returning BUY, on downward crossover sells 20% of assets
returning SELL, otherwise returns HOLD without touching the portfolio. -/
theorem ma_crossover_decision (t : Trader) (p : ℚ)
    (hp : (t.klines KlineColumns.CLOSE_PRICE).getLast? = some p) (hp0 : p ≠ 0) :
    make_a_decision_MA t =
      (if (sigB (t.klines KlineColumns.CLOSE_PRICE)
            ((t.klines KlineColumns.CLOSE_PRICE).length - 1))
          != (sigB (t.klines KlineColumns.CLOSE_PRICE)
            ((t.klines KlineColumns.CLOSE_PRICE).length - 2)) then
        if sigB (t.klines KlineColumns.CLOSE_PRICE)
            ((t.klines KlineColumns.CLOSE_PRICE).length - 1) then
          .ok (.BUY, { t with
            assets := t.assets + t.balance * (1/2) * (1 - TRADING_FEE) / p,
            balance := t.balance - t.balance * (1/2) })
        else .ok (.SELL, { t with
            assets := t.assets - t.assets * (1/5),
            balance := t.balance + p * (t.assets * (1/5)) * (1 - TRADING_FEE) })
      else .ok (.DO_NOTHING, t)) := by
  rw [maDecide_spec t p hp, if_neg hp0]

/-- Evaluation helper: a rolling mean at a concrete index, given the window
slice computed once. -/
theorem windowMean_eval (w : ℕ) (prices : List ℚ) (i : ℕ) (seg : List ℚ)
    (hseg : (prices.take (i + 1)).drop (i + 1 - w) = seg) :
    windowMean w prices i = seg.sum / seg.length := by
  simp only [windowMean, hseg]

/-- A trader with two constant-price ticks: both SMAs agree, no crossover. -/
def constTrader : Trader :=
  { balance := 10000, assets := 0,
    klines := fun k => if k = KlineColumns.CLOSE_PRICE then [100, 100] else [] }

theorem sigB_const_zero : sigB [100, 100] 0 = false := by
  have h10 : windowMean 10 [100, 100] 0 = 100 := by
    rw [windowMean_eval 10 [100, 100] 0 [100] rfl]
    norm_num
  have h50 : windowMean 50 [100, 100] 0 = 100 := by
    rw [windowMean_eval 50 [100, 100] 0 [100] rfl]
    norm_num
  rw [sigB, h10, h50]
  simp

theorem sigB_const_one : sigB [100, 100] 1 = false := by
  have h10 : windowMean 10 [100, 100] 1 = 100 := by
    rw [windowMean_eval 10 [100, 100] 1 [100, 100] rfl]
    norm_num [List.sum_cons, List.sum_nil]
  have h50 : windowMean 50 [100, 100] 1 = 100 := by
    rw [windowMean_eval 50 [100, 100] 1 [100, 100] rfl]
    norm_num [List.sum_cons, List.sum_nil]
  rw [sigB, h10, h50]
  simp

/-- Witness for C7: two equal closes give no crossover, hence HOLD. -/
theorem ma_crossover_decision_witness :
    make_a_decision_MA constTrader = .ok (ACTION.DO_NOTHING, constTrader) := by
  rw [ma_crossover_decision constTrader 100 rfl (by norm_num)]
  have hk : constTrader.klines KlineColumns.CLOSE_PRICE = [100, 100] := rfl
  rw [hk]
  norm_num [sigB_const_one, sigB_const_zero]

/-- The close-price buffer of the C7 counterexample: an upward crossover at
the last tick whose close price is `0`. -/
def zeroClosePrices : List ℚ := [0, 5, 0, 0, 0, 0, 0, 0, 0, 0, 0]

/-- A trader whose buffer ends in an upward crossover at close price `0`. -/
def zeroCloseTrader : Trader :=
  { balance := 10000, assets := 0,
    klines := fun k => if k = KlineColumns.CLOSE_PRICE then zeroClosePrices else [] }

/-- Counterexample to C7 as stated: the buffer has an upward crossover at the
last tick (`short > long` flips from false to true), but instead of buying 50%
and returning BUY, the code divides by the last close price `0` and fails with
`ZeroDivisionError`. -/
theorem sigB_zero_ten : sigB zeroClosePrices 10 = true := by
  have h10 : windowMean 10 zeroClosePrices 10 = 1 / 2 := by
    rw [windowMean_eval 10 zeroClosePrices 10 [5, 0, 0, 0, 0, 0, 0, 0, 0, 0] rfl]
    norm_num [List.sum_cons, List.sum_nil]
  have h50 : windowMean 50 zeroClosePrices 10 = 5 / 11 := by
    rw [windowMean_eval 50 zeroClosePrices 10
      [0, 5, 0, 0, 0, 0, 0, 0, 0, 0, 0] rfl]
    norm_num [List.sum_cons, List.sum_nil]
  rw [sigB, h10, h50]
  norm_num

theorem sigB_zero_nine : sigB zeroClosePrices 9 = false := by
  have h10 : windowMean 10 zeroClosePrices 9 = 1 / 2 := by
    rw [windowMean_eval 10 zeroClosePrices 9 [0, 5, 0, 0, 0, 0, 0, 0, 0, 0] rfl]
    norm_num [List.sum_cons, List.sum_nil]
  have h50 : windowMean 50 zeroClosePrices 9 = 1 / 2 := by
    rw [windowMean_eval 50 zeroClosePrices 9 [0, 5, 0, 0, 0, 0, 0, 0, 0, 0] rfl]
    norm_num [List.sum_cons, List.sum_nil]
  rw [sigB, h10, h50]
  simp

theorem ma_zero_close_crossover_fails :
    sigB zeroClosePrices 10 = true
    ∧ sigB zeroClosePrices 9 = false
    ∧ make_a_decision_MA zeroCloseTrader = .error TradeError.zeroDivisionError := by
  refine ⟨sigB_zero_ten, sigB_zero_nine, ?_⟩
  rw [maDecide_spec zeroCloseTrader 0 rfl]
  have hk : zeroCloseTrader.klines KlineColumns.CLOSE_PRICE = zeroClosePrices := rfl
  rw [hk]
  have hlen : zeroClosePrices.length = 11 := rfl
  rw [hlen]
  norm_num [sigB_zero_ten, sigB_zero_nine]

/-- Counterexample to C5 as stated: with an *empty* tick buffer,
`RandomActionTrader.make_a_decision` does not fail when the branch draw lands
in the HOLD region — it returns `DO_NOTHING` successfully. -/
theorem random_empty_buffer_holds :
    make_a_decision_random (1/2) (1/3) Trader.init
      = .ok (ACTION.DO_NOTHING, Trader.init) := by
  norm_num [make_a_decision_random]

/-- Claim C5 (amended): on an empty buffer `MovingAverageTrader.make_a_decision`
always fails (`IndexError` from `[-1]` on an empty array), while
`RandomActionTrader.make_a_decision` fails (`IndexError` inside `_buy`/`_sell`)
exactly when the draw selects BUY or SELL (`prob < 2/6`) and returns
`DO_NOTHING` successfully otherwise; after at least one appended tick both
strategies return exactly one decision, provided the BUY path does not divide
by a zero last close price. -/
theorem decide_on_empty_and_nonempty_buffer :
    (∀ t : Trader, t.klines KlineColumns.CLOSE_PRICE = [] →
        make_a_decision_MA t = .error .indexError)
    ∧ (∀ (t : Trader) (prob ratio : ℚ), t.klines KlineColumns.CLOSE_PRICE = [] →
        prob < 2/6 →
        make_a_decision_random prob ratio t = .error .indexError)
    ∧ (∀ (t : Trader) (prob ratio : ℚ), t.klines KlineColumns.CLOSE_PRICE = [] →
        2/6 ≤ prob →
        make_a_decision_random prob ratio t = .ok (.DO_NOTHING, t))
    ∧ (∀ (t : Trader) (p : ℚ),
        (t.klines KlineColumns.CLOSE_PRICE).getLast? = some p → p ≠ 0 →
        ∃ a t', make_a_decision_MA t = .ok (a, t'))
    ∧ (∀ (t : Trader) (p prob ratio : ℚ),
        (t.klines KlineColumns.CLOSE_PRICE).getLast? = some p → p ≠ 0 →
        ∃ a t', make_a_decision_random prob ratio t = .ok (a, t')) := by
  refine ⟨fun t h => ?_, fun t prob ratio h hlt => ?_, fun t prob ratio h hge => ?_,
    fun t p hp hp0 => ?_, fun t p prob ratio hp hp0 => ?_⟩
  · simp [make_a_decision_MA, h, compute_moving_average, rollOne]
  · have hep : t.estimated_price = none := by
      simp [Trader.estimated_price, h]
    have hbuy : t.buy ratio = .error .indexError := by
      rw [Trader.buy, Trader.buyF, hep]
    have hsell : t.sell ratio = .error .indexError := by
      rw [Trader.sell, Trader.sellF, hep]
    rw [make_a_decision_random]
    by_cases h1 : prob < 1/6
    · rw [if_pos h1, hbuy]
    · rw [if_neg h1, if_pos ⟨le_of_not_lt h1, hlt⟩, hsell]
  · have h1 : ¬ prob < 1/6 := not_lt.mpr (by linarith)
    have h2 : ¬ (1/6 ≤ prob ∧ prob < 2/6) :=
      fun hc => absurd hc.2 (not_lt.mpr (by linarith))
    rw [make_a_decision_random, if_neg h1, if_neg h2]
  · rw [maDecide_spec t p hp, if_neg hp0]
    by_cases hcb : ((sigB (t.klines KlineColumns.CLOSE_PRICE)
        ((t.klines KlineColumns.CLOSE_PRICE).length - 1))
        != (sigB (t.klines KlineColumns.CLOSE_PRICE)
          ((t.klines KlineColumns.CLOSE_PRICE).length - 2))) = true
    · by_cases hs : sigB (t.klines KlineColumns.CLOSE_PRICE)
          ((t.klines KlineColumns.CLOSE_PRICE).length - 1) = true
      · exact ⟨ACTION.BUY,
          { t with assets := t.assets + t.balance * (1/2) * (1 - TRADING_FEE) / p,
                   balance := t.balance - t.balance * (1/2) },
          by rw [if_pos hcb, if_pos hs]⟩
      · exact ⟨ACTION.SELL,
          { t with assets := t.assets - t.assets * (1/5),
                   balance := t.balance + p * (t.assets * (1/5)) * (1 - TRADING_FEE) },
          by rw [if_pos hcb, if_neg hs]⟩
    · exact ⟨ACTION.DO_NOTHING, t, by rw [if_neg hcb]⟩
  · have hep : t.estimated_price = some p := hp
    rw [make_a_decision_random]
    by_cases h1 : prob < 1/6
    · exact ⟨ACTION.BUY,
        { t with assets := t.assets + t.balance * ratio * (1 - TRADING_FEE) / p,
                 balance := t.balance - t.balance * ratio },
        by
          rw [if_pos h1]
          simp only [Trader.buy, Trader.buyF, hep]
          rw [if_neg hp0]⟩
    · by_cases h2 : prob < 2/6
      · exact ⟨ACTION.SELL,
          { t with assets := t.assets - t.assets * ratio,
                   balance := t.balance + p * (t.assets * ratio) * (1 - TRADING_FEE) },
          by
            rw [if_neg h1, if_pos ⟨le_of_not_lt h1, h2⟩]
            simp only [Trader.sell, Trader.sellF, hep]⟩
      · exact ⟨ACTION.DO_NOTHING, t,
          by rw [if_neg h1, if_neg (fun hc => absurd hc.2 h2)]⟩

/-- Witness for C5's amended theorem: the empty-buffer BUY draw fails, the
empty-buffer HOLD draw succeeds, and one appended tick gives a decision. -/
theorem decide_on_empty_and_nonempty_buffer_witness :
    make_a_decision_random (1/12) (1/3) Trader.init
      = Except.error TradeError.indexError
    ∧ (∃ a t', make_a_decision_MA constTrader = .ok (a, t')) :=
  ⟨decide_on_empty_and_nonempty_buffer.2.1 Trader.init (1/12) (1/3) rfl (by norm_num),
   decide_on_empty_and_nonempty_buffer.2.2.2.1 constTrader 100 rfl (by norm_num)⟩

/-- Claim C8: whenever `make_a_decision` (either strategy) returns
`DO_NOTHING` (HOLD), the trader state is returned unchanged: balance, assets —
and hence `estimated_balance` — are exactly those of the input state. -/
theorem hold_leaves_portfolio_unchanged :
    (∀ t t' : Trader, make_a_decision_MA t = .ok (ACTION.DO_NOTHING, t') →
        t'.balance = t.balance ∧ t'.assets = t.assets ∧
        t'.estimated_balance = t.estimated_balance)
    ∧ (∀ (prob ratio : ℚ) (t t' : Trader),
        make_a_decision_random prob ratio t = .ok (ACTION.DO_NOTHING, t') →
        t'.balance = t.balance ∧ t'.assets = t.assets ∧
        t'.estimated_balance = t.estimated_balance) := by
  constructor
  · intro t t' h
    simp only [make_a_decision_MA] at h
    repeat' split at h
    all_goals simp_all
  · intro prob ratio t t' h
    simp only [make_a_decision_random, Trader.buy, Trader.buyF,
      Trader.sell, Trader.sellF] at h
    repeat' split at h
    all_goals simp_all

/-- Witness for C8: a HOLD decision of the random strategy on a fresh trader. -/
theorem hold_leaves_portfolio_unchanged_witness :
    Trader.init.balance = Trader.init.balance
    ∧ Trader.init.assets = Trader.init.assets
    ∧ Trader.init.estimated_balance = Trader.init.estimated_balance :=
  hold_leaves_portfolio_unchanged.2 (1/2) (1/3) Trader.init Trader.init
    (by norm_num [make_a_decision_random])

/-! ## Pagination lemmas -/

theorem windowStarts_unfold (s e : ℤ) :
    windowStarts s e =
      if s + 60000 ≥ e - 1 then [s] else s :: windowStarts (s + 60000) e := by
  rw [windowStarts]

theorem windowStarts_get? (s e : ℤ) :
    ∀ i : ℕ, i < (windowStarts s e).length →
      (windowStarts s e).get? i = some (s + 60000 * i) := by
  intro i
  induction i generalizing s with
  | zero =>
    intro h
    rw [windowStarts_unfold]
    by_cases hc : s + 60000 ≥ e - 1
    · rw [if_pos hc]
      simp
    · rw [if_neg hc]
      simp
  | succ j ih =>
    intro h
    by_cases hc : s + 60000 ≥ e - 1
    · rw [windowStarts_unfold, if_pos hc] at h
      simp at h
    · rw [windowStarts_unfold, if_neg hc] at h ⊢
      have hj : j < (windowStarts (s + 60000) e).length := by
        simpa using h
      rw [List.get?_cons_succ, ih (s + 60000) hj]
      congr 1
      push_cast
      ring

theorem windowStarts_sep (s e : ℤ) :
    ∀ (i : ℕ) (w : ℤ), i + 1 < (windowStarts s e).length →
      (windowStarts s e).get? i = some w → w + 60000 < e - 1 := by
  intro i
  induction i generalizing s with
  | zero =>
    intro w h hw
    by_cases hc : s + 60000 ≥ e - 1
    · rw [windowStarts_unfold, if_pos hc] at h
      simp at h
    · rw [windowStarts_unfold, if_neg hc] at hw
      rw [List.get?_cons_zero] at hw
      cases hw
      exact lt_of_not_ge hc
  | succ j ih =>
    intro w h hw
    by_cases hc : s + 60000 ≥ e - 1
    · rw [windowStarts_unfold, if_pos hc] at h
      simp at h
    · rw [windowStarts_unfold, if_neg hc] at h hw
      have hj : j + 1 < (windowStarts (s + 60000) e).length := by
        simpa using h
      rw [List.get?_cons_succ] at hw
      exact ih (s + 60000) w hj hw

/-- Replaying completion events in any order that covers every fan-out index
fills every slot with that slot's own task result. -/
theorem slotsAfter_eq (results : List α) (order : List ℕ) (j : ℕ) :
    slotsAfter results order j
      = if j ∈ order then results.get? j else none := by
  suffices h : ∀ init : ℕ → Option α,
      (order.foldl (fun acc i => fun j' => if j' = i then results.get? i else acc j')
        init) j = if j ∈ order then results.get? j else init j by
    exact h (fun _ => none)
  induction order with
  | nil => intro init; simp
  | cons i rest ih =>
    intro init
    rw [List.foldl_cons, ih]
    by_cases hj : j ∈ rest
    · simp [hj]
    · by_cases hji : j = i
      · simp [hji, hj]
      · simp [hji, hj]

theorem gatherSched_eq (results : List α) (order : List ℕ)
    (hord : ∀ j, j < results.length → j ∈ order) :
    gatherSched results order = results.map some := by
  apply List.ext_get?
  intro n
  rw [gatherSched, List.get?_map, List.get?_map]
  by_cases hn : n < results.length
  · have hv : results.get? n = some (results.get ⟨n, hn⟩) := List.get?_eq_get hn
    rw [List.get?_range hn, hv]
    show some (slotsAfter results order n) = some (some _)
    rw [slotsAfter_eq, if_pos (hord n hn), hv]
  · have h1 : (List.range results.length).get? n = none :=
      List.get?_eq_none.mpr (by simpa using hn)
    have h2 : results.get? n = none := List.get?_eq_none.mpr (by omega)
    rw [h1, h2]
    rfl

theorem mergeSeries_eq_join (rs : List Series) (key : KlineColumns) :
    mergeSeries rs key = (rs.map fun r => r key).join := by
  have hfold : ∀ (ls : List Series) (init : List ℚ),
      ls.foldl (fun value r => value ++ r key) init
        = init ++ (ls.map fun r => r key).join := by
    intro ls
    induction ls with
    | nil => intro init; simp
    | cons r xs ih =>
      intro init
      rw [List.foldl_cons, ih]
      simp [List.append_assoc]
  cases rs with
  | nil => rfl
  | cons r0 rest =>
    show rest.foldl (fun value r => value ++ r key) (r0 key) = _
    rw [hfold]
    simp

theorem gatherResults_ok (xs : List (Except ε Series))
    (h : ∀ x ∈ xs, ∃ v, x = .ok v) :
    ∃ vs, gatherResults xs = .ok vs ∧ xs = vs.map Except.ok := by
  induction xs with
  | nil => exact ⟨[], rfl, rfl⟩
  | cons x rest ih =>
    obtain ⟨v, hv⟩ := h x (by simp)
    obtain ⟨vs, hvs, hxs⟩ := ih (fun y hy => h y (by simp [hy]))
    refine ⟨v :: vs, ?_, by simp [hv, hxs]⟩
    rw [hv]
    simp only [gatherResults]
    rw [hvs]

theorem gatherResults_error (xs : List (Except ε Series))
    (h : ∃ x ∈ xs, ∃ err, x = .error err) :
    ∃ err, gatherResults xs = .error err ∧ Except.error err ∈ xs := by
  induction xs with
  | nil => simp at h
  | cons x rest ih =>
    match hx : x with
    | .error err =>
      refine ⟨err, ?_, by simp⟩
      simp only [gatherResults]
    | .ok v =>
      have hrest : ∃ y ∈ rest, ∃ err, y = .error err := by
        obtain ⟨y, hy, err, herr⟩ := h
        rcases List.mem_cons.mp hy with h1 | h1
        · rw [h1] at herr
          cases herr
        · exact ⟨y, h1, err, herr⟩
      obtain ⟨err, herr, hmem⟩ := ih hrest
      refine ⟨err, ?_, by simp [hmem]⟩
      simp only [gatherResults]
      rw [herr]

set_option maxRecDepth 10000 in
theorem klinesResponse_clipped (w e : ℤ) :
    klinesResponse w e
      = ((List.range 1000).map fun k : ℕ => w + 60 * (k : ℤ)).filter
          (fun t => t < w + 60000 ∧ t ≤ e) := by
  rw [klinesResponse]
  apply List.filter_congr
  intro t ht
  obtain ⟨k, hk, rfl⟩ := List.mem_map.mp ht
  have hk' : k < 1000 := by simpa using hk
  simp only [decide_eq_decide]
  omega

set_option maxRecDepth 10000 in
theorem klinesResponse_unclipped (w e : ℤ) (h : w + 60000 < e - 1) :
    klinesResponse w e = (List.range 1000).map fun k : ℕ => w + 60 * (k : ℤ) := by
  rw [klinesResponse]
  apply List.filter_eq_self.mpr
  intro t ht
  obtain ⟨k, hk, rfl⟩ := List.mem_map.mp ht
  have hk' : k < 1000 := by simpa using hk
  simp only [decide_eq_true_eq]
  omega

/-- Claim C1: the pagination loop issues its fetches at the consecutive
1000-minute start times `s + i·60000`; whatever order the network completes
the fetches in, `gather` reassembles the results by fan-out position, and the
merged Series is the positional column-wise concatenation of the sub-window
results; against the kline endpoint, each sub-window's content is exactly the
1000-minute minute-grid window clipped to `endTime`, and every sub-window
other than the last is unclipped. -/
theorem pagination_windows_and_order (fetch : ℤ → ℤ → Series) (s e : ℤ)
    (order : List ℕ)
    (hord : ∀ j, j < (windowStarts s e).length → j ∈ order) :
    (∀ i : ℕ, i < (windowStarts s e).length →
        (windowStarts s e).get? i = some (s + 60000 * i))
    ∧ gatherSched ((windowStarts s e).map fun w => fetch w e) order
        = ((windowStarts s e).map fun w => fetch w e).map some
    ∧ get_prices_in_period
          (fun w e' => (Except.ok (fetch w e') : Except Unit Series)) s e
        = .ok (mergeSeries ((windowStarts s e).map fun w => fetch w e))
    ∧ (∀ key, mergeSeries ((windowStarts s e).map fun w => fetch w e) key
        = (((windowStarts s e).map fun w => fetch w e).map fun r => r key).join)
    ∧ (∀ w ∈ windowStarts s e, klinesResponse w e
        = ((List.range 1000).map fun k : ℕ => w + 60 * (k : ℤ)).filter
            (fun t => t < w + 60000 ∧ t ≤ e))
    ∧ (∀ (i : ℕ) (w : ℤ), i + 1 < (windowStarts s e).length →
        (windowStarts s e).get? i = some w →
        klinesResponse w e = (List.range 1000).map fun k : ℕ => w + 60 * (k : ℤ)) := by
  refine ⟨windowStarts_get? s e, ?_, ?_, mergeSeries_eq_join _,
    fun w _ => klinesResponse_clipped w e, fun i w hi hw => ?_⟩
  · exact gatherSched_eq _ order (by simpa using hord)
  · obtain ⟨vs, hvs, hxs⟩ := gatherResults_ok
      ((windowStarts s e).map fun w => (Except.ok (fetch w e) : Except Unit Series))
      (fun x hx => by
        simp only [List.mem_map] at hx
        obtain ⟨w, _, rfl⟩ := hx
        exact ⟨fetch w e, rfl⟩)
    have hinj : Function.Injective (Except.ok : Series → Except Unit Series) :=
      fun a b hab => Except.ok.inj hab
    have hmaps : vs.map (Except.ok : Series → Except Unit Series)
        = ((windowStarts s e).map fun w => fetch w e).map Except.ok := by
      rw [← hxs, List.map_map]
      rfl
    have hvs' : vs = (windowStarts s e).map fun w => fetch w e :=
      List.map_injective_iff.mpr hinj hmaps
    simp only [get_prices_in_period]
    rw [hvs, hvs']
  · exact klinesResponse_unclipped w e (windowStarts_sep s e i w hi hw)

/-- The concrete fetch used by the C1 witness: every sub-window yields a
one-row series holding its own start time. -/
def demoFetch : ℤ → ℤ → Series := fun w _ => fun _ => [(w : ℚ)]

theorem windowStarts_demo : windowStarts 0 100000 = [0, 60000] := by
  rw [windowStarts_unfold]
  norm_num
  rw [windowStarts_unfold]
  norm_num

/-- Witness for C1: two sub-windows completing out of order ([1, 0]) still
reassemble positionally. -/
theorem pagination_windows_and_order_witness :
    gatherSched ((windowStarts 0 100000).map fun w => demoFetch w 100000) [1, 0]
      = ((windowStarts 0 100000).map fun w => demoFetch w 100000).map some :=
  (pagination_windows_and_order demoFetch 0 100000 [1, 0] (by
    rw [windowStarts_demo]
    decide)).2.1

/-- Claim C6: pagination is atomic — if every sub-window fetch succeeds the
result is the merged series of all windows, and if any sub-window fetch fails
the whole call fails with one of the failing windows' errors and no partial
series is returned. -/
theorem pagination_atomic_failure (fetch : ℤ → ℤ → Except ε Series) (s e : ℤ) :
    ((∀ w ∈ windowStarts s e, ∃ r, fetch w e = .ok r) →
      ∃ rs, get_prices_in_period fetch s e = .ok (mergeSeries rs)
        ∧ (windowStarts s e).map (fun w => fetch w e) = rs.map Except.ok)
    ∧ ((∃ w ∈ windowStarts s e, ∃ err, fetch w e = .error err) →
      ∃ err, get_prices_in_period fetch s e = .error err
        ∧ ∃ w ∈ windowStarts s e, fetch w e = .error err) := by
  constructor
  · intro h
    obtain ⟨vs, hvs, hxs⟩ := gatherResults_ok
      ((windowStarts s e).map fun w => fetch w e)
      (fun x hx => by
        simp only [List.mem_map] at hx
        obtain ⟨w, hw, rfl⟩ := hx
        exact h w hw)
    refine ⟨vs, ?_, hxs⟩
    rw [get_prices_in_period, hvs]
  · intro h
    obtain ⟨w, hw, err, herr⟩ := h
    obtain ⟨err', herr', hmem⟩ := gatherResults_error
      ((windowStarts s e).map fun w => fetch w e)
      ⟨fetch w e, List.mem_map_of_mem _ hw, err, herr⟩
    refine ⟨err', ?_, ?_⟩
    · rw [get_prices_in_period, herr']
    · simp only [List.mem_map] at hmem
      obtain ⟨w', hw', hfw⟩ := hmem
      exact ⟨w', hw', hfw⟩

/-- A fetch for the C6 witness: the second sub-window (start 60000) fails. -/
def demoFailFetch : ℤ → ℤ → Except String Series := fun w _ =>
  if w = 60000 then .error "timeout" else .ok (fun _ => [(w : ℚ)])

/-- Witness for C6: one failing sub-window makes the whole pagination fail
with that window's error. -/
theorem pagination_atomic_failure_witness :
    ∃ err, get_prices_in_period demoFailFetch 0 100000 = .error err
      ∧ ∃ w ∈ windowStarts 0 100000, demoFailFetch w 100000 = .error err :=
  (pagination_atomic_failure demoFailFetch 0 100000).2 (by
    rw [windowStarts_demo]
    exact ⟨60000, by simp, "timeout", by rw [demoFailFetch]; norm_num⟩)

/-! ## Rate-limiter proofs -/

/-- Remaining scheduler work of one call: a waiting call still has its
acquire and release steps ahead, a running call only its release. -/
def phaseWeight : CallPhase → ℕ
  | .waiting => 2
  | .running => 1
  | .done => 0

/-- Total remaining work of a limiter state. -/
def LimiterState.weight (s : LimiterState) : ℕ :=
  (s.calls.map phaseWeight).sum

theorem count_set_exchange (l : List CallPhase) :
    ∀ (i : ℕ) (a v x : CallPhase), l.get? i = some a →
      (l.set i v).count x + (if a = x then 1 else 0)
        = l.count x + (if v = x then 1 else 0) := by
  induction l with
  | nil => intro i a v x h; cases h
  | cons b bs ih =>
    intro i a v x h
    cases i with
    | zero =>
      cases h
      simp only [List.set, List.count_cons]
      split_ifs <;> simp_all
    | succ j =>
      rw [List.get?_cons_succ] at h
      have h2 := ih j a v x h
      simp only [List.set, List.count_cons]
      split_ifs at h2 ⊢ <;> omega

theorem weight_set_exchange (l : List CallPhase) :
    ∀ (i : ℕ) (a v : CallPhase), l.get? i = some a →
      ((l.set i v).map phaseWeight).sum + phaseWeight a
        = (l.map phaseWeight).sum + phaseWeight v := by
  induction l with
  | nil => intro i a v h; cases h
  | cons b bs ih =>
    intro i a v h
    cases i with
    | zero =>
      cases h
      simp only [List.set, List.map_cons, List.sum_cons]
      omega
    | succ j =>
      rw [List.get?_cons_succ] at h
      have := ih j a v h
      simp only [List.set, List.map_cons, List.sum_cons]
      omega

/-- One enabled step preserves the permit-accounting invariant, preserves the
number of calls, and strictly decreases the remaining work. -/
theorem limiterStep_inv (N : ℕ) (s s' : LimiterState) (evt : LimiterEvt)
    (hstep : limiterStep s evt = some s')
    (hinv : s.permits + s.inFlight = N) :
    s'.permits + s'.inFlight = N
    ∧ s'.calls.length = s.calls.length
    ∧ s'.weight < s.weight := by
  cases evt with
  | acquire i =>
    rw [limiterStep] at hstep
    split_ifs at hstep with hc
    · cases hstep
      obtain ⟨hw, hperm⟩ := hc
      have hcount := count_set_exchange s.calls i .waiting .running .running hw
      have hweight := weight_set_exchange s.calls i .waiting .running hw
      simp only [phaseWeight] at hweight
      simp only [LimiterState.inFlight, LimiterState.weight] at *
      refine ⟨?_, List.length_set _ _ _, ?_⟩ <;> simp_all <;> omega
  | release i =>
    rw [limiterStep] at hstep
    split_ifs at hstep with hc
    · cases hstep
      have hcount := count_set_exchange s.calls i .running .done .running hc
      have hweight := weight_set_exchange s.calls i .running .done hc
      simp only [phaseWeight] at hweight
      simp only [LimiterState.inFlight, LimiterState.weight] at *
      refine ⟨?_, List.length_set _ _ _, ?_⟩ <;> simp_all <;> omega

theorem runLimiter_inv (N : ℕ) (trace : List LimiterEvt) :
    ∀ (s s' : LimiterState), runLimiter s trace = some s' →
      s.permits + s.inFlight = N →
      (s'.permits + s'.inFlight = N
        ∧ s'.calls.length = s.calls.length
        ∧ s'.weight + trace.length ≤ s.weight) := by
  induction trace with
  | nil =>
    intro s s' h hinv
    cases h
    exact ⟨hinv, rfl, by simp⟩
  | cons evt rest ih =>
    intro s s' h hinv
    rw [runLimiter, List.foldlM_cons] at h
    match hstep : limiterStep s evt with
    | none => rw [hstep] at h; cases h
    | some s1 =>
      rw [hstep] at h
      obtain ⟨h1, h2, h3⟩ := limiterStep_inv N s s1 evt hstep hinv
      obtain ⟨h4, h5, h6⟩ := ih s1 s' h h1
      exact ⟨h4, h5.trans h2, by simp only [List.length_cons]; omega⟩

/-- In a stuck state with a positive pool, every call is done: a running call
could release, and a waiting call could acquire (directly when a permit is
free, and a permit-freeing release exists otherwise). -/
theorem limiter_stuck_all_done (N : ℕ) (s : LimiterState) (hN : 0 < N)
    (hinv : s.permits + s.inFlight = N)
    (hstuck : ∀ evt, limiterStep s evt = none) :
    ∀ c ∈ s.calls, c = .done := by
  have hnorun : ∀ i, s.calls.get? i ≠ some .running := by
    intro i hi
    have := hstuck (.release i)
    rw [limiterStep, if_pos hi] at this
    cases this
  have hcount : s.inFlight = 0 := by
    by_contra hc
    have hpos : 0 < s.calls.count .running := Nat.pos_of_ne_zero hc
    have hmem : CallPhase.running ∈ s.calls := List.count_pos_iff_mem.mp hpos
    obtain ⟨i, hi⟩ := List.mem_iff_get?.mp hmem
    exact hnorun i hi
  have hperm : 0 < s.permits := by
    omega
  intro c hc
  obtain ⟨i, hi⟩ := List.mem_iff_get?.mp hc
  cases c with
  | done => rfl
  | running => exact absurd hi (hnorun i)
  | waiting =>
    have := hstuck (.acquire i)
    rw [limiterStep, if_pos ⟨hi, hperm⟩] at this
    cases this

/-- Claim C9: for every pool size `N` and number of concurrent calls `k`, along
every schedule of the `call_limit` semaphore model, at most `N` calls are in
flight at any instant; every schedule is finite (length at most `2k`, so no
call is suspended forever); and when no step is enabled any more (the maximal
states of the system, with a positive pool) every call has completed. -/
theorem call_limit_bounds_and_completes (N k : ℕ) (trace : List LimiterEvt)
    (s' : LimiterState)
    (h : runLimiter (LimiterState.init N k) trace = some s') :
    s'.inFlight ≤ N
    ∧ trace.length ≤ 2 * k
    ∧ (0 < N → (∀ evt, limiterStep s' evt = none) →
        s'.calls = List.replicate k .done) := by
  have hinv0 : (LimiterState.init N k).permits + (LimiterState.init N k).inFlight = N := by
    simp [LimiterState.init, LimiterState.inFlight, List.count_replicate]
  obtain ⟨h1, h2, h3⟩ := runLimiter_inv N trace _ s' h hinv0
  have hw0 : (LimiterState.init N k).weight = 2 * k := by
    simp [LimiterState.init, LimiterState.weight, List.map_replicate,
      List.sum_replicate, phaseWeight]
    omega
  have hlen : s'.calls.length = k := by
    rw [h2]
    simp [LimiterState.init]
  refine ⟨by omega, by omega, fun hN hstuck => ?_⟩
  rw [List.eq_replicate]
  exact ⟨hlen, limiter_stuck_all_done N s' hN h1 hstuck⟩

/-- The demonstration schedule for pool size 2 and 5 calls: calls 0 and 1
acquire, then each release frees a permit for the next waiting call. -/
def demoLimiterTrace : List LimiterEvt :=
  [.acquire 0, .acquire 1, .release 0, .acquire 2, .release 1,
   .acquire 3, .release 2, .acquire 4, .release 3, .release 4]

/-- Witness for C9: the demonstration schedule with pool 2 and 5 calls stays
within the bound and completes. -/
theorem call_limit_bounds_and_completes_witness :
    ∃ s', runLimiter (LimiterState.init 2 5) demoLimiterTrace = some s'
      ∧ s'.inFlight ≤ 2 ∧ demoLimiterTrace.length ≤ 2 * 5 := by
  refine ⟨{ permits := 2, calls := List.replicate 5 .done }, ?_, ?_, ?_⟩
  · decide
  · exact (call_limit_bounds_and_completes 2 5 demoLimiterTrace
      { permits := 2, calls := List.replicate 5 .done } (by decide)).1
  · exact (call_limit_bounds_and_completes 2 5 demoLimiterTrace
      { permits := 2, calls := List.replicate 5 .done } (by decide)).2.1

end BinanceBot
